import Mathlib

/-!
Verification of the FixMatch training script (`train.py`) against its
natural-language specification.  The script's pure computations are embedded
shallowly: tensors over one parameter or one batch become Lean lists over `ℝ`,
Python dicts become association lists, fallible dict lookups become `Option` /
`Except`, and the epoch/step loops become folds over lists.
-/

namespace FixMatch

noncomputable section

open Real Filter List

/-! ## Checkpoint save / resume (train.py lines 261-272 and 329-337) -/

/--
The record written by `save_checkpoint` at the end of an epoch
(train.py lines 329-337), as an association list in source order.  The value
bound to the key `"epoch"` at the save site is `epoch + 1` (line 330); the
other six values are the model / EMA / optimizer / scheduler state dicts and
the two accuracy scalars, kept abstract here in a value type `α`.
-/
def savedCheckpoint {α : Type} (epochVal stateDictVal emaStateDictVal accVal
    bestAccVal optimizerVal schedulerVal : α) : List (String × α) :=
  [(("epoch"), epochVal), (("state_dict"), stateDictVal),
   (("ema_state_dict"), emaStateDictVal), (("acc"), accVal),
   (("best_acc"), bestAccVal), (("optimizer"), optimizerVal),
   (("scheduler"), schedulerVal)]

/--
The keys the resume path reads out of a loaded checkpoint
(train.py lines 267-272), in source order.  Note the last one: line 272 reads
`checkpoint['schduler']`, not `checkpoint['scheduler']`.
-/
def resumeReadKeys : List String :=
  [("best_acc"), ("epoch"), ("state_dict"), ("ema_state_dict"),
   ("optimizer"), ("schduler")]

/-- Value stored in the checkpoint's `epoch` field when the checkpoint is
written at the end of epoch `completedEpoch` (train.py line 330). -/
def savedEpochField (completedEpoch : ℕ) : ℕ := completedEpoch + 1

/-- On resume, `start_epoch` is set to the checkpoint's `epoch` field
unchanged (train.py line 268). -/
def resumeStartEpoch (ckptEpochField : ℕ) : ℕ := ckptEpochField

/-- The epoch indices visited by `for epoch in range(start_epoch, args.epochs)`
(train.py line 297). -/
def epochLoop (startEpoch epochs : ℕ) : List ℕ :=
  List.range' startEpoch (epochs - startEpoch)

/-! ## Optimizer parameter grouping (train.py lines 232-245) -/

/-- The `no_decay` name list (train.py line 232). -/
def noDecayList : List String := [("bias"), ("bn")]

/-- Python's substring test `nd in n` on parameter names. -/
def containsSub (n nd : String) : Bool := decide (nd.data <:+: n.data)

/-- The per-name test `any(nd in n for nd in no_decay)`
(train.py lines 235 and 239). -/
def hitsNoDecay (n : String) : Bool := noDecayList.any fun nd => containsSub n nd

/-- One optimizer parameter group: its member parameters (identified by name)
and its weight-decay coefficient. -/
structure ParamGroup where
  params : List String
  weightDecayCoeff : ℝ

/--
The `grouped_parameters` list handed to the SGD constructor
(train.py lines 233-241): the first group keeps every named parameter whose
name contains no `no_decay` substring and carries coefficient
`args.wdecay * 2` (line 236); the second keeps the rest with coefficient
`0.0` (line 240).
-/
def groupedParameters (wdecay : ℝ) (namedParams : List String) : List ParamGroup :=
  [⟨namedParams.filter fun n => !hitsNoDecay n, wdecay * 2⟩,
   ⟨namedParams.filter fun n => hitsNoDecay n, 0⟩]

/-! ## Best-accuracy tracking (train.py lines 322-323) -/

/-- One epoch-end update `best_acc = max(test_acc, best_acc)`
(train.py line 323). -/
def bestAccStep (bestAcc testAcc : ℝ) : ℝ := max testAcc bestAcc

/-- `best_acc` after folding the per-epoch test accuracies `accs` over the
epoch loop, starting from `init` (the global initial `0` at line 30, or the
value restored from a checkpoint at line 267). -/
def bestAccAfter (init : ℝ) (accs : List ℝ) : ℝ := accs.foldl bestAccStep init

/-! ## Iterations per epoch (train.py lines 247 and 361-367) -/

/-- `args.iteration = int(args.k_img / args.batch_size)` (train.py line 247);
for non-negative operands Python's `int(a / b)` is floor division. -/
def iteration (kImg batchSize : ℕ) : ℕ := kImg / batchSize

/-- Number of batches a loader built with `drop_last=True` yields over a
dataset of `datasetSize` examples (train.py lines 212-224): the external
data-loader contract gives `floor(datasetSize / batchSize)` full batches. -/
def numBatches (datasetSize batchSize : ℕ) : ℕ := datasetSize / batchSize

/-- `train_loader = zip(labeled_trainloader, unlabeled_trainloader)`
(train.py line 361); the `for` loop at line 367 enumerates exactly these
pairs. -/
def trainLoaderPairs {α β : Type} (labeledBatches : List α)
    (unlabeledBatches : List β) : List (α × β) :=
  List.zip labeledBatches unlabeledBatches

/-! ## Learning-rate schedule (train.py lines 49-61) -/

/--
`_lr_lambda` inside `get_cosine_schedule_with_warmup` (train.py lines 54-59)
with the default `num_cycles = 7/16`: a linear ramp
`current_step / max(1, num_warmup_steps)` during warmup, then
`max(0, cos(pi * (7/16) * no_progress))` with
`no_progress = (current_step - num_warmup_steps)
  / max(1, num_training_steps - num_warmup_steps)`.
-/
def lrLambda (numWarmupSteps numTrainingSteps currentStep : ℕ) : ℝ :=
  if currentStep < numWarmupSteps then
    (currentStep : ℝ) / ((max 1 numWarmupSteps : ℕ) : ℝ)
  else
    max 0 (Real.cos (Real.pi * (7 / 16) *
      (((currentStep - numWarmupSteps : ℕ) : ℝ) /
        ((max 1 (numTrainingSteps - numWarmupSteps) : ℕ) : ℝ))))

/-! ## EMA shadow model (train.py lines 475-512) -/

/-- The value written into one shadow parameter by `ModelEMA.update`
(train.py line 512): `ema_v * decay + (1 - decay) * model_v`. -/
def emaNewVal (decay emaV modelV : ℝ) : ℝ := emaV * decay + (1 - decay) * modelV

/-- The key under which `ModelEMA.update` reads the live model's state dict
(train.py lines 507-508): the shadow key itself, prefixed with the
replication wrapper's indirection prefix when `needs_module` holds. -/
def prefKey (needsModule : Bool) (k : String) : String :=
  if needsModule then ("module.") ++ k else k

/--
`ModelEMA.update` (train.py lines 502-512) over association-list state dicts.
Each shadow entry `(k, ema_v)` is rewritten to `emaNewVal decay ema_v model_v`
where `model_v = msd[prefKey needsModule k]`; a failed dict lookup is Python's
fatal `KeyError`, modelled as `Except.error` carrying the missing key.
-/
def emaUpdate (needsModule : Bool) (decay : ℝ) (msd : List (String × ℝ)) :
    List (String × ℝ) → Except String (List (String × ℝ))
  | [] => Except.ok []
  | (k, emaV) :: rest =>
    match List.lookup (prefKey needsModule k) msd with
    | none => Except.error (prefKey needsModule k)
    | some modelV =>
      match emaUpdate needsModule decay msd rest with
      | Except.error e => Except.error e
      | Except.ok out => Except.ok ((k, emaNewVal decay emaV modelV) :: out)

/-- The shadow value after `n` repeated EMA updates in which the live value
stays fixed at `0`, starting from shadow value `e0`. -/
def shadowSeq (decay e0 : ℝ) : ℕ → ℝ
  | 0 => e0
  | n + 1 => emaNewVal decay (shadowSeq decay e0 n) 0

/-- The key renaming applied to each checkpoint entry by
`ModelEMA._load_checkpoint` (train.py lines 495-498): when the shadow model
itself is wrapped, keys not already starting with `module` gain the prefix. -/
def reconcileKey (emaHasModule : Bool) (k : String) : String :=
  if emaHasModule then (if k.startsWith ("module") then k else ("module.") ++ k)
  else k

/-- The `new_state_dict` built by `ModelEMA._load_checkpoint`
(train.py lines 493-499). -/
def reconcileStateDict (emaHasModule : Bool) (ckptEma : List (String × ℝ)) :
    List (String × ℝ) :=
  ckptEma.map fun kv => (reconcileKey emaHasModule kv.1, kv.2)

/-- The external framework's strict `load_state_dict`, called at
train.py line 500, modelled per spec section 7 ("fatal key-lookup failure;
never silently skip a parameter"): loading succeeds only when the supplied
keys cover the model's own keys exactly (no missing and no unexpected keys),
and otherwise raises. -/
def loadStateDict (ownKeys : List String) (sd : List (String × ℝ)) :
    Except String (List (String × ℝ)) :=
  if (ownKeys.all fun k => (sd.map Prod.fst).contains k) &&
      ((sd.map Prod.fst).all fun k => ownKeys.contains k) then
    Except.ok sd
  else
    Except.error ("unexpected or missing keys in state_dict")

/-- `ModelEMA._load_checkpoint`'s restore of the saved shadow state
(train.py lines 489-500): reconcile the key prefixes, then strict-load. -/
def emaLoadCheckpoint (emaHasModule : Bool) (ownKeys : List String)
    (ckptEma : List (String × ℝ)) : Except String (List (String × ℝ)) :=
  loadStateDict ownKeys (reconcileStateDict emaHasModule ckptEma)

/-! ## Pseudo-labeling and loss assembly (train.py lines 379-387) -/

/-- `torch.softmax(row, dim=-1)` on one row of logits. -/
def softmaxRow (logits : List ℝ) : List ℝ :=
  logits.map fun z => Real.exp z / (logits.map Real.exp).sum

/-- The largest entry of a row: the `values` half of `torch.max(_, dim=-1)`. -/
def rowMax : List ℝ → ℝ
  | [] => 0
  | x :: xs => xs.foldl max x

/-- The first index attaining the largest entry: the `indices` half of
`torch.max(_, dim=-1)`. -/
def rowArgmax (l : List ℝ) : ℕ := List.indexOf (rowMax l) l

/-- Per-example `F.cross_entropy(logits, target)` of the framework:
`log (sum_j exp logits_j) - logits_target`. -/
def crossEntropy (logits : List ℝ) (target : ℕ) : ℝ :=
  Real.log ((logits.map Real.exp).sum) - logits.getD target 0

/-- `tensor.mean()` over a batch-long vector. -/
def mean (xs : List ℝ) : ℝ := xs.sum / xs.length

/-- Train.py line 381: `pseudo_label = torch.softmax(logits_u_w, dim=-1)`,
for one row of weak-view logits. -/
def pseudoLabelRow (logitsRow : List ℝ) : List ℝ := softmaxRow logitsRow

/-- Line 382: `max_probs` for one unlabeled example. -/
def maxProb (logitsRow : List ℝ) : ℝ := rowMax (pseudoLabelRow logitsRow)

/-- Line 382: `targets_u` (the pseudo-label class) for one unlabeled
example. -/
def targetU (logitsRow : List ℝ) : ℕ := rowArgmax (pseudoLabelRow logitsRow)

/-- Line 383: `mask = max_probs.ge(args.threshold).float()` for one
example. -/
def maskRow (threshold : ℝ) (logitsRow : List ℝ) : ℝ :=
  if threshold ≤ maxProb logitsRow then 1 else 0

/-- Line 379: `Lx = F.cross_entropy(logits_x, targets_x, reduction='mean')`. -/
def Lx (logitsX : List (List ℝ)) (targetsX : List ℕ) : ℝ :=
  mean (List.zipWith crossEntropy logitsX targetsX)

/-- Lines 385-386, before the final mean: the per-example products
`F.cross_entropy(logits_u_s, targets_u, reduction='none') * mask`. -/
def LuTerms (threshold : ℝ) (logitsW logitsS : List (List ℝ)) : List ℝ :=
  List.zipWith (fun w s => crossEntropy s (targetU w) * maskRow threshold w)
    logitsW logitsS

/-- Lines 385-386: `Lu = (F.cross_entropy(...) * mask).mean()`. -/
def Lu (threshold : ℝ) (logitsW logitsS : List (List ℝ)) : ℝ :=
  mean (LuTerms threshold logitsW logitsS)

/-- Line 387: `loss = Lx + args.lambda_u * Lu`. -/
def totalLoss (threshold lambdaU : ℝ) (logitsX : List (List ℝ))
    (targetsX : List ℕ) (logitsW logitsS : List (List ℝ)) : ℝ :=
  Lx logitsX targetsX + lambdaU * Lu threshold logitsW logitsS

/-- Formula from the spec (section 4.4 item 3), stated index-wise: the mean
cross-entropy of the labeled-segment logits against the true labels. -/
def LxSpecFormula (logitsX : List (List ℝ)) (targetsX : List ℕ) : ℝ :=
  (∑ i ∈ Finset.range logitsX.length,
    crossEntropy (logitsX.getD i []) (targetsX.getD i 0)) / logitsX.length

/-- Formula from the spec (section 4.4 item 5), stated index-wise: the mean
over the unlabeled batch of `mask[i] * cross_entropy(strong[i], pseudo[i])`. -/
def LuSpecFormula (threshold : ℝ) (logitsW logitsS : List (List ℝ)) : ℝ :=
  (∑ i ∈ Finset.range logitsS.length,
    maskRow threshold (logitsW.getD i []) *
      crossEntropy (logitsS.getD i []) (targetU (logitsW.getD i []))) /
    logitsS.length

/-! ## Theorems -/

/-- A left fold of `max` lands on its seed or on a list element. -/
theorem foldl_max_mem (x : ℝ) (xs : List ℝ) : xs.foldl max x ∈ x :: xs := by
  induction xs generalizing x with
  | nil => simp
  | cons y ys ih =>
    have h := ih (max x y)
    rw [List.foldl_cons]
    rcases List.mem_cons.mp h with heq | hmem
    · rcases max_choice x y with hc | hc
      · rw [heq, hc]
        exact List.mem_cons_self x (y :: ys)
      · rw [heq, hc]
        exact List.mem_cons_of_mem x (List.mem_cons_self y ys)
    · exact List.mem_cons_of_mem x (List.mem_cons_of_mem y hmem)

/-- A left fold of `max` bounds its seed and every list element. -/
theorem le_foldl_max (x : ℝ) (xs : List ℝ) :
    ∀ a ∈ x :: xs, a ≤ xs.foldl max x := by
  induction xs generalizing x with
  | nil =>
    intro a ha
    rw [List.mem_singleton] at ha
    simp [ha]
  | cons y ys ih =>
    intro a ha
    rw [List.foldl_cons]
    rcases List.mem_cons.mp ha with rfl | ha2
    · exact le_trans (le_max_left a y)
        (ih (max a y) (max a y) (List.mem_cons_self _ _))
    · rcases List.mem_cons.mp ha2 with rfl | ha3
      · exact le_trans (le_max_right x a)
          (ih (max x a) (max x a) (List.mem_cons_self _ _))
      · exact ih (max x y) a (List.mem_cons_of_mem _ ha3)

/-- The row maximum of a non-empty row is one of its entries. -/
theorem rowMax_mem (l : List ℝ) (h : l ≠ []) : rowMax l ∈ l := by
  cases l with
  | nil => exact absurd rfl h
  | cons x xs => exact foldl_max_mem x xs

/-- Every entry of a row is bounded by the row maximum. -/
theorem le_rowMax (l : List ℝ) : ∀ a ∈ l, a ≤ rowMax l := by
  cases l with
  | nil => intro a ha; cases ha
  | cons x xs => intro a ha; exact le_foldl_max x xs a ha

/-- The entry at the argmax index of a non-empty row is the row maximum. -/
theorem getD_rowArgmax (l : List ℝ) (h : l ≠ []) :
    l.getD (rowArgmax l) 0 = rowMax l := by
  have hmem : rowMax l ∈ l := rowMax_mem l h
  have hlt : List.indexOf (rowMax l) l < l.length :=
    List.indexOf_lt_length.mpr hmem
  rw [rowArgmax, List.getD_eq_getElem?_getD, List.getElem?_eq_getElem hlt,
    List.getElem_indexOf hlt, Option.getD_some]

/-- Indexing a `zipWith` in range applies the function to the two indexed
entries. -/
theorem zipWith_getD {α β γ : Type} (f : α → β → γ) (da : α) (db : β) (dg : γ) :
    ∀ (as : List α) (bs : List β) (i : ℕ), i < as.length → i < bs.length →
      (List.zipWith f as bs).getD i dg = f (as.getD i da) (bs.getD i db) := by
  intro as
  induction as with
  | nil =>
    intro bs i h1 h2
    exact absurd h1 (Nat.not_lt_zero i)
  | cons a as2 ih =>
    intro bs i h1 h2
    cases bs with
    | nil => exact absurd h2 (Nat.not_lt_zero i)
    | cons b bs2 =>
      cases i with
      | zero => simp [List.zipWith_cons_cons]
      | succ j =>
        simp only [List.zipWith_cons_cons, List.getD_cons_succ]
        exact ih bs2 j (Nat.lt_of_succ_lt_succ h1) (Nat.lt_of_succ_lt_succ h2)

/-- The sum of a `zipWith` over equal-length lists, written as an indexed
sum. -/
theorem sum_zipWith_eq_sum_range {α β : Type} (f : α → β → ℝ) (da : α) (db : β) :
    ∀ (as : List α) (bs : List β), as.length = bs.length →
      (List.zipWith f as bs).sum =
        ∑ i ∈ Finset.range as.length, f (as.getD i da) (bs.getD i db) := by
  intro as
  induction as with
  | nil => intro bs h; simp
  | cons a as2 ih =>
    intro bs h
    cases bs with
    | nil => simp at h
    | cons b bs2 =>
      have hlen : as2.length = bs2.length := by simpa using h
      rw [List.zipWith_cons_cons, List.sum_cons, ih bs2 hlen, List.length_cons,
        Finset.sum_range_succ']
      simp only [List.getD_cons_succ, List.getD_cons_zero]
      ring

/-- Success characterisation of `emaUpdate`: on `Except.ok` every lookup
succeeded and the output is the pointwise-updated shadow dict. -/
theorem emaUpdate_ok_spec (needsModule : Bool) (decay : ℝ)
    (msd : List (String × ℝ)) :
    ∀ emaSd out, emaUpdate needsModule decay msd emaSd = Except.ok out →
      (∀ kv ∈ emaSd, ∃ v, List.lookup (prefKey needsModule kv.1) msd = some v) ∧
      out = emaSd.map fun kv =>
        (kv.1, emaNewVal decay kv.2
          ((List.lookup (prefKey needsModule kv.1) msd).getD 0)) := by
  intro emaSd
  induction emaSd with
  | nil =>
    intro out h
    simp only [emaUpdate] at h
    cases h
    simp
  | cons hd rest ih =>
    intro out h
    obtain ⟨k, emaV⟩ := hd
    simp only [emaUpdate] at h
    cases hlk : List.lookup (prefKey needsModule k) msd with
    | none => rw [hlk] at h; cases h
    | some modelV =>
      rw [hlk] at h
      cases hrec : emaUpdate needsModule decay msd rest with
      | error e => rw [hrec] at h; cases h
      | ok restOut =>
        rw [hrec] at h
        cases h
        obtain ⟨hall, hout⟩ := ih restOut hrec
        constructor
        · intro kv hkv
          rcases List.mem_cons.mp hkv with rfl | hkv
          · exact ⟨modelV, hlk⟩
          · exact hall kv hkv
        · simp only [List.map_cons, hout, hlk, Option.getD_some]

/-- Failure characterisation of `emaUpdate`: a shadow key whose lookup key is
absent from the live state dict makes the whole update fail. -/
theorem emaUpdate_error_spec (needsModule : Bool) (decay : ℝ)
    (msd : List (String × ℝ)) :
    ∀ emaSd, (∃ kv ∈ emaSd, List.lookup (prefKey needsModule kv.1) msd = none) →
      ∃ msg, emaUpdate needsModule decay msd emaSd = Except.error msg := by
  intro emaSd
  induction emaSd with
  | nil => rintro ⟨kv, hkv, _⟩; cases hkv
  | cons hd rest ih =>
    rintro ⟨kv, hkv, hnone⟩
    obtain ⟨k, emaV⟩ := hd
    cases hlk : List.lookup (prefKey needsModule k) msd with
    | none => exact ⟨prefKey needsModule k, by simp only [emaUpdate, hlk]⟩
    | some modelV =>
      rcases List.mem_cons.mp hkv with heq | hmem
      · exfalso
        rw [heq] at hnone
        simp only at hnone
        rw [hlk] at hnone
        cases hnone
      · obtain ⟨msg, hmsg⟩ := ih ⟨kv, hmem, hnone⟩
        exact ⟨msg, by simp only [emaUpdate, hlk, hmsg]⟩

/--
Claim C5: each successful EMA update writes, for every shadow parameter,
exactly `decay * old_shadow + (1 - decay) * live_value` with the live value
read from the current live model's state dict; with `decay = 0.9`, prior
shadow `10` and live value `0` the updated shadow is `9`; and repeating that
update with the live value fixed at `0` is strictly decreasing and converges
to `0`.
-/
theorem ema_update_spec :
    (∀ decay e v, emaNewVal decay e v = decay * e + (1 - decay) * v) ∧
    emaNewVal 0.9 10 0 = 9 ∧
    (∀ (needsModule : Bool) (decay : ℝ) (msd emaSd out : List (String × ℝ)),
      emaUpdate needsModule decay msd emaSd = Except.ok out →
      ∀ k e, (k, e) ∈ emaSd →
        ∃ v, List.lookup (prefKey needsModule k) msd = some v ∧
          (k, emaNewVal decay e v) ∈ out) ∧
    (∀ n, shadowSeq 0.9 10 (n + 1) < shadowSeq 0.9 10 n) ∧
    Tendsto (shadowSeq 0.9 10) atTop (nhds 0) := by
  have hclosed : ∀ n, shadowSeq 0.9 10 n = 10 * (0.9 : ℝ) ^ n := by
    intro n
    induction n with
    | zero => simp [shadowSeq]
    | succ m ihm => rw [shadowSeq, ihm, emaNewVal]; ring
  refine ⟨fun decay e v => by rw [emaNewVal]; ring, by rw [emaNewVal]; norm_num,
    ?_, ?_, ?_⟩
  · intro needsModule decay msd emaSd out h k e hke
    obtain ⟨hall, hout⟩ := emaUpdate_ok_spec needsModule decay msd emaSd out h
    obtain ⟨v, hv⟩ := hall (k, e) hke
    refine ⟨v, hv, ?_⟩
    rw [hout]
    exact List.mem_map.mpr ⟨(k, e), hke, by simp [hv]⟩
  · intro n
    rw [hclosed, hclosed]
    have hpow : (0.9 : ℝ) ^ (n + 1) < (0.9 : ℝ) ^ n :=
      pow_lt_pow_right_of_lt_one₀ (by norm_num) (by norm_num) (Nat.lt_succ_self n)
    linarith
  · have h10 : Tendsto (fun n : ℕ => 10 * (0.9 : ℝ) ^ n) atTop (nhds (10 * 0)) :=
      (tendsto_pow_atTop_nhds_zero_of_lt_one (by norm_num) (by norm_num)).const_mul 10
    rw [mul_zero] at h10
    exact h10.congr fun n => (hclosed n).symm

/-- Witness for C5: a one-parameter update with `decay = 0.9`, shadow `10`
and live value `0`, and the first step of the fixed-live-value scenario. -/
theorem ema_update_spec_witness :
    (∃ v, List.lookup (prefKey false ("w")) [(("w"), (0 : ℝ))] = some v ∧
      (("w"), emaNewVal 0.9 10 v) ∈ [(("w"), emaNewVal 0.9 10 0)]) ∧
    shadowSeq 0.9 10 1 < shadowSeq 0.9 10 0 := by
  refine ⟨ema_update_spec.2.2.1 false 0.9 [(("w"), 0)] [(("w"), 10)]
    [(("w"), emaNewVal 0.9 10 0)] ?_ ("w") 10 (by simp), ema_update_spec.2.2.2.1 0⟩
  simp [emaUpdate, prefKey]

/--
Claim C6: with the live model replication-wrapped and the shadow model not
(`needs_module`), the EMA update reads the live state dict under the shadow
key prefixed with `module.`; if a shadow key is found under neither its own
nor the prefixed name, the update fails with a key-lookup error rather than
skipping the parameter, and a successful update leaves no parameter
un-updated; likewise the shadow-state checkpoint restore fails when a shadow
key is matched by no reconciled checkpoint key.
-/
theorem ema_key_reconciliation :
    (∀ k, prefKey true k = ("module.") ++ k) ∧
    (∀ (decay : ℝ) (msd emaSd out : List (String × ℝ)),
      emaUpdate true decay msd emaSd = Except.ok out →
      (∀ kv ∈ emaSd, ∃ v, List.lookup (("module.") ++ kv.1) msd = some v) ∧
      out = emaSd.map fun kv =>
        (kv.1, emaNewVal decay kv.2
          ((List.lookup (("module.") ++ kv.1) msd).getD 0))) ∧
    (∀ (decay : ℝ) (msd emaSd : List (String × ℝ)) (k : String) (e : ℝ),
      (k, e) ∈ emaSd →
      List.lookup (("module.") ++ k) msd = none →
      List.lookup k msd = none →
      ∃ msg, emaUpdate true decay msd emaSd = Except.error msg) ∧
    (∀ (emaHasModule : Bool) (ownKeys : List String)
        (ckptEma : List (String × ℝ)) (k : String), k ∈ ownKeys →
      (∀ kv ∈ reconcileStateDict emaHasModule ckptEma, kv.1 ≠ k) →
      ∃ msg, emaLoadCheckpoint emaHasModule ownKeys ckptEma =
        Except.error msg) := by
  have hpref : ∀ k, prefKey true k = ("module.") ++ k := fun k => rfl
  refine ⟨hpref, ?_, ?_, ?_⟩
  · intro decay msd emaSd out h
    obtain ⟨hall, hout⟩ := emaUpdate_ok_spec true decay msd emaSd out h
    refine ⟨fun kv hkv => hpref kv.1 ▸ hall kv hkv, ?_⟩
    rw [hout]
    exact List.map_congr_left fun kv _ => by rw [hpref]
  · intro decay msd emaSd k e hke hnone _
    exact emaUpdate_error_spec true decay msd emaSd
      ⟨(k, e), hke, (hpref k).symm ▸ hnone⟩
  · intro emaHasModule ownKeys ckptEma k hk hmiss
    refine ⟨("unexpected or missing keys in state_dict"), ?_⟩
    unfold emaLoadCheckpoint loadStateDict
    have hnotmem : k ∉ (reconcileStateDict emaHasModule ckptEma).map Prod.fst := by
      intro hmem
      obtain ⟨kv, hkv, hkveq⟩ := List.mem_map.mp hmem
      exact hmiss kv hkv hkveq
    have hcontains :
        ((reconcileStateDict emaHasModule ckptEma).map Prod.fst).contains k
          = false := by
      rw [List.contains_eq_any_beq]
      rw [List.any_eq_false]
      intro x hx
      simp only [beq_iff_eq]
      intro hxk
      exact hnotmem (hxk ▸ hx)
    have hall : (ownKeys.all fun k2 =>
        ((reconcileStateDict emaHasModule ckptEma).map Prod.fst).contains k2)
          = false := by
      rw [List.all_eq_false]
      exact ⟨k, hk, by rw [hcontains]; simp⟩
    rw [hall]
    simp

/--
Claim C1 (evidence of the code bug): the checkpoint writer stores the
schedule state under the key `scheduler` (train.py line 336), but the resume
path reads the key `schduler` (line 272), which is absent from every saved
record, so resuming from a checkpoint written by this script fails with a
`KeyError` instead of restoring the schedule step count.  The remaining five
read keys, the `epoch = completed + 1` convention, and the resume of the
epoch loop at the persisted value are as claimed.
-/
theorem checkpoint_scheduler_key_bug :
    ("schduler") ∈ resumeReadKeys ∧
    ("schduler") ∉ (savedCheckpoint (α := ℕ) 1 2 3 4 5 6 7).map Prod.fst ∧
    List.lookup ("schduler") (savedCheckpoint (α := ℕ) 1 2 3 4 5 6 7) = none ∧
    List.lookup ("scheduler") (savedCheckpoint (α := ℕ) 1 2 3 4 5 6 7) = some 7 ∧
    List.lookup ("epoch") (savedCheckpoint (α := ℕ) 1 2 3 4 5 6 7) = some 1 ∧
    List.lookup ("state_dict") (savedCheckpoint (α := ℕ) 1 2 3 4 5 6 7) = some 2 ∧
    List.lookup ("ema_state_dict") (savedCheckpoint (α := ℕ) 1 2 3 4 5 6 7) = some 3 ∧
    List.lookup ("best_acc") (savedCheckpoint (α := ℕ) 1 2 3 4 5 6 7) = some 5 ∧
    List.lookup ("optimizer") (savedCheckpoint (α := ℕ) 1 2 3 4 5 6 7) = some 6 ∧
    savedEpochField 4 = 5 ∧
    resumeStartEpoch 5 = 5 ∧
    epochLoop 5 8 = [5, 6, 7] := by
  decide

/--
Claim C7: the two optimizer parameter groups partition the model's named
parameters exactly.  The concatenation of the two groups' member lists is a
permutation of the full parameter-name list, each group is characterised by
the no-decay substring test, and no name lies in both groups.
-/
theorem weight_decay_partition (wdecay : ℝ) (namedParams : List String) :
    List.Perm
      (((groupedParameters wdecay namedParams).getD 0 ⟨[], 0⟩).params ++
        ((groupedParameters wdecay namedParams).getD 1 ⟨[], 0⟩).params)
      namedParams ∧
    (∀ n, n ∈ ((groupedParameters wdecay namedParams).getD 0 ⟨[], 0⟩).params ↔
      n ∈ namedParams ∧ hitsNoDecay n = false) ∧
    (∀ n, n ∈ ((groupedParameters wdecay namedParams).getD 1 ⟨[], 0⟩).params ↔
      n ∈ namedParams ∧ hitsNoDecay n = true) ∧
    (∀ n, n ∈ ((groupedParameters wdecay namedParams).getD 0 ⟨[], 0⟩).params →
      n ∉ ((groupedParameters wdecay namedParams).getD 1 ⟨[], 0⟩).params) := by
  refine ⟨?_, ?_, ?_, ?_⟩
  · simpa [groupedParameters] using
      (List.perm_append_comm.trans
        (List.filter_append_perm (fun n => hitsNoDecay n) namedParams))
  · intro n
    simp [groupedParameters, List.mem_filter]
  · intro n
    simp [groupedParameters, List.mem_filter]
  · intro n h0 h1
    simp [groupedParameters, List.mem_filter] at h0 h1
    exact absurd h1.2 (by simp [h0.2])

/-- Witness for C7 at a concrete parameter list. -/
theorem weight_decay_partition_witness :
    ("conv.weight") ∉
      ((groupedParameters 1 [("conv.weight"), ("bn1.bias")]).getD 1 ⟨[], 0⟩).params :=
  (weight_decay_partition 1 [("conv.weight"), ("bn1.bias")]).2.2.2 ("conv.weight")
    (by decide)

/--
Claim C8: `best_acc` is non-decreasing over the epoch loop, bounds every test
accuracy observed so far together with the restored initial value, is always
one of those observed values, and over the accuracy sequence
`[70, 65, 80, 75]` it equals `80` after the third epoch and stays `80` after
the fourth.
-/
theorem best_acc_spec :
    (∀ (init : ℝ) (accs : List ℝ) (a : ℝ),
      bestAccAfter init accs ≤ bestAccAfter init (accs ++ [a])) ∧
    (∀ (init : ℝ) (accs : List ℝ),
      init ≤ bestAccAfter init accs ∧ ∀ a ∈ accs, a ≤ bestAccAfter init accs) ∧
    (∀ (init : ℝ) (accs : List ℝ),
      bestAccAfter init accs = init ∨ bestAccAfter init accs ∈ accs) ∧
    bestAccAfter 0 [70, 65, 80] = 80 ∧
    bestAccAfter 0 [70, 65, 80, 75] = 80 := by
  have hstep : ∀ (init : ℝ) (accs : List ℝ) (a : ℝ),
      bestAccAfter init (accs ++ [a]) = max a (bestAccAfter init accs) := by
    intro init accs a
    simp [bestAccAfter, List.foldl_append, bestAccStep]
  have hub : ∀ (accs : List ℝ) (init : ℝ),
      init ≤ bestAccAfter init accs ∧ ∀ a ∈ accs, a ≤ bestAccAfter init accs := by
    intro accs
    induction accs with
    | nil => intro init; simp [bestAccAfter]
    | cons x rest ih =>
      intro init
      have h := ih (bestAccStep init x)
      constructor
      · exact le_trans (le_max_right x init) h.1
      · intro a ha
        rcases List.mem_cons.mp ha with rfl | ha
        · exact le_trans (le_max_left a init) h.1
        · exact h.2 a ha
  have hmem : ∀ (accs : List ℝ) (init : ℝ),
      bestAccAfter init accs = init ∨ bestAccAfter init accs ∈ accs := by
    intro accs
    induction accs with
    | nil => intro init; left; simp [bestAccAfter]
    | cons x rest ih =>
      intro init
      have h := ih (bestAccStep init x)
      have hfold : bestAccAfter init (x :: rest) = bestAccAfter (bestAccStep init x) rest := rfl
      rcases h with h | h
      · rcases max_choice x init with hc | hc
        · right; rw [hfold, h, bestAccStep, hc]; exact List.mem_cons_self x rest
        · left; rw [hfold, h, bestAccStep, hc]
      · right; exact List.mem_cons_of_mem x (hfold ▸ h)
  refine ⟨?_, fun init accs => hub accs init, fun init accs => hmem accs init, ?_, ?_⟩
  · intro init accs a
    rw [hstep]
    exact le_max_right a (bestAccAfter init accs)
  · show bestAccAfter 0 [70, 65, 80] = 80
    simp only [bestAccAfter, List.foldl_cons, List.foldl_nil, bestAccStep]
    norm_num [max_def]
  · show bestAccAfter 0 [70, 65, 80, 75] = 80
    simp only [bestAccAfter, List.foldl_cons, List.foldl_nil, bestAccStep]
    norm_num [max_def]

/-- Witness for C8 at a concrete accuracy sequence. -/
theorem best_acc_spec_witness :
    (65 : ℝ) ≤ bestAccAfter 0 [70, 65, 80] := by
  have h := (best_acc_spec.2.1 0 [70, 65, 80]).2 65 (by norm_num)
  exact h

/--
Claim C9: the epoch's training loop runs over the zip of the labeled and
unlabeled loaders, so it executes `min` of the two loader lengths many
iterations; with the dataset budgets passed at train.py lines 200-201
(`k_img` labeled and `k_img * mu` unlabeled examples) and `mu ≥ 1`, that
count equals `iteration = floor(k_img / batch_size)` from line 247.
-/
theorem iterations_per_epoch {α β : Type} (labeledBatches : List α)
    (unlabeledBatches : List β) (kImg mu batchSize : ℕ) (hmu : 1 ≤ mu)
    (hl : labeledBatches.length = numBatches kImg batchSize)
    (hu : unlabeledBatches.length = numBatches (kImg * mu) batchSize) :
    (trainLoaderPairs labeledBatches unlabeledBatches).length =
      min labeledBatches.length unlabeledBatches.length ∧
    (trainLoaderPairs labeledBatches unlabeledBatches).length =
      iteration kImg batchSize := by
  have hzip : (trainLoaderPairs labeledBatches unlabeledBatches).length =
      min labeledBatches.length unlabeledBatches.length :=
    List.length_zip labeledBatches unlabeledBatches
  refine ⟨hzip, ?_⟩
  rw [hzip, hl, hu]
  have hle : kImg ≤ kImg * mu := by
    calc kImg = kImg * 1 := (mul_one kImg).symm
    _ ≤ kImg * mu := Nat.mul_le_mul_left kImg hmu
  exact min_eq_left (Nat.div_le_div_right hle)

/-- Witness for C9: `k_img = 4`, `mu = 7`, `batch_size = 2`, loaders of the
matching lengths 2 and 14; the zipped loop runs `iteration 4 2 = 2` times. -/
theorem iterations_per_epoch_witness :
    (trainLoaderPairs [0, 1] (List.replicate 14 0)).length = iteration 4 2 :=
  (iterations_per_epoch [0, 1] (List.replicate 14 0) 4 7 2 (by decide)
    (by decide) (by decide)).2

/--
Claim C10 (counterexample): with the configured `wdecay = 0` the decayed
group's coefficient is `0 * 2 = 0`, which *is* the configured value itself,
so the claim's "never the configured value itself" fails on that run.
-/
theorem doubled_wdecay_counterexample :
    ((groupedParameters 0 [("conv.weight")]).getD 0 ⟨[], 1⟩).weightDecayCoeff
      = (0 : ℝ) := by
  simp [groupedParameters]

/--
Claim C10 (amended): the weight-decayed group's coefficient is exactly
`wdecay * 2` (train.py line 236) and the no-decay group's is exactly `0.0`
(line 240); the doubled coefficient differs from the configured value
whenever `wdecay ≠ 0`.
-/
theorem doubled_wdecay_spec (wdecay : ℝ) (namedParams : List String) :
    ((groupedParameters wdecay namedParams).getD 0 ⟨[], 0⟩).weightDecayCoeff
      = wdecay * 2 ∧
    ((groupedParameters wdecay namedParams).getD 1 ⟨[], 0⟩).weightDecayCoeff
      = 0 ∧
    (wdecay ≠ 0 →
      ((groupedParameters wdecay namedParams).getD 0 ⟨[], 0⟩).weightDecayCoeff
        ≠ wdecay) := by
  refine ⟨by simp [groupedParameters], by simp [groupedParameters], ?_⟩
  intro hne
  simp only [groupedParameters, List.getD_cons_zero]
  intro heq
  apply hne
  linarith

/--
Claim C4: the learning-rate multiplier always lies in `[0, 1]`; below
`warmup_steps` it equals `step / max(1, warmup_steps)`, so it is `0` at step
`0` when `warmup_steps > 0` and non-decreasing over the warmup range; at and
beyond `warmup_steps` it equals
`max(0, cos(pi * (7/16) * progress))` with
`progress = (step - warmup_steps) / max(1, total_steps - warmup_steps)`, and
it is non-increasing for steps between `warmup_steps` and `total_steps`.
-/
theorem lr_schedule_spec (w t : ℕ) :
    (∀ s, 0 ≤ lrLambda w t s ∧ lrLambda w t s ≤ 1) ∧
    (∀ s, s < w → lrLambda w t s = (s : ℝ) / ((max 1 w : ℕ) : ℝ)) ∧
    (0 < w → lrLambda w t 0 = 0) ∧
    (∀ s1 s2, s1 ≤ s2 → s2 < w → lrLambda w t s1 ≤ lrLambda w t s2) ∧
    (∀ s, w ≤ s → lrLambda w t s =
      max 0 (Real.cos (Real.pi * (7 / 16) *
        (((s - w : ℕ) : ℝ) / ((max 1 (t - w) : ℕ) : ℝ))))) ∧
    (∀ s1 s2, w ≤ s1 → s1 ≤ s2 → s2 ≤ t →
      lrLambda w t s2 ≤ lrLambda w t s1) := by
  have hWpos : (0 : ℝ) < ((max 1 w : ℕ) : ℝ) := by
    exact_mod_cast lt_of_lt_of_le Nat.one_pos (le_max_left 1 w)
  have hDpos : (0 : ℝ) < ((max 1 (t - w) : ℕ) : ℝ) := by
    exact_mod_cast lt_of_lt_of_le Nat.one_pos (le_max_left 1 (t - w))
  have hwarm : ∀ s, s < w → lrLambda w t s = (s : ℝ) / ((max 1 w : ℕ) : ℝ) := by
    intro s hs
    unfold lrLambda
    rw [if_pos hs]
  have helse : ∀ s, w ≤ s → lrLambda w t s =
      max 0 (Real.cos (Real.pi * (7 / 16) *
        (((s - w : ℕ) : ℝ) / ((max 1 (t - w) : ℕ) : ℝ)))) := by
    intro s hs
    unfold lrLambda
    rw [if_neg (not_lt.mpr hs)]
  refine ⟨?_, hwarm, ?_, ?_, helse, ?_⟩
  · intro s
    by_cases hs : s < w
    · rw [hwarm s hs]
      refine ⟨div_nonneg (Nat.cast_nonneg s) hWpos.le, ?_⟩
      rw [div_le_one hWpos]
      exact_mod_cast le_trans (Nat.le_of_lt hs) (le_max_right 1 w)
    · rw [helse s (not_lt.mp hs)]
      exact ⟨le_max_left 0 _, max_le (by norm_num) (Real.cos_le_one _)⟩
  · intro hw
    rw [hwarm 0 hw]
    simp
  · intro s1 s2 h12 h2w
    rw [hwarm s1 (lt_of_le_of_lt h12 h2w), hwarm s2 h2w]
    exact (div_le_div_iff_of_pos_right hWpos).mpr (by exact_mod_cast h12)
  · intro s1 s2 h1 h12 h2t
    rw [helse s1 h1, helse s2 (le_trans h1 h12)]
    set D : ℝ := ((max 1 (t - w) : ℕ) : ℝ) with hDdef
    set p1 : ℝ := ((s1 - w : ℕ) : ℝ) / D with hp1def
    set p2 : ℝ := ((s2 - w : ℕ) : ℝ) / D with hp2def
    have hp1 : 0 ≤ p1 := div_nonneg (Nat.cast_nonneg _) hDpos.le
    have hp12 : p1 ≤ p2 :=
      (div_le_div_iff_of_pos_right hDpos).mpr (by exact_mod_cast Nat.sub_le_sub_right h12 w)
    have hp2 : p2 ≤ 1 := by
      rw [hp2def, div_le_one hDpos, hDdef]
      exact_mod_cast le_trans (Nat.sub_le_sub_right h2t w) (le_max_right 1 (t - w))
    set c : ℝ := Real.pi * (7 / 16) with hcdef
    have hc0 : 0 ≤ c := by
      rw [hcdef]
      positivity
    have hcpi : c ≤ Real.pi := by
      have h := mul_le_mul_of_nonneg_left (show (7 : ℝ) / 16 ≤ 1 by norm_num)
        Real.pi_pos.le
      rw [mul_one] at h
      exact h
    have ha1 : 0 ≤ c * p1 := mul_nonneg hc0 hp1
    have ha12 : c * p1 ≤ c * p2 := mul_le_mul_of_nonneg_left hp12 hc0
    have ha2 : c * p2 ≤ Real.pi := by
      have h := mul_le_mul_of_nonneg_left hp2 hc0
      rw [mul_one] at h
      exact le_trans h hcpi
    exact max_le_max le_rfl (Real.cos_le_cos_of_nonneg_of_le_pi ha1 ha2 ha12)

/-- Witness for C4: concrete schedule with `warmup = 2`, `total = 10`; the
multiplier is `0` at step `0` and non-increasing from step `4` to step `8`. -/
theorem lr_schedule_spec_witness :
    lrLambda 2 10 0 = 0 ∧ lrLambda 2 10 8 ≤ lrLambda 2 10 4 :=
  ⟨(lr_schedule_spec 2 10).2.2.1 (by norm_num),
   (lr_schedule_spec 2 10).2.2.2.2.2 4 8 (by norm_num) (by norm_num)
     (by norm_num)⟩

/-- Witness for C6: a shadow parameter `w` absent from the live state dict
under both namings makes the wrapped-live-model EMA update fail. -/
theorem ema_key_reconciliation_witness :
    ∃ msg, emaUpdate true 0.5 [] [(("w"), (1 : ℝ))] = Except.error msg :=
  ema_key_reconciliation.2.2.1 0.5 [] [(("w"), 1)] ("w") 1 (by simp) rfl rfl

/--
Claim C2: the confidence mask computed from the weak-view logits is exactly
`1` when the largest softmax probability clears the threshold and exactly `0`
otherwise, never any other value; the pseudo-label is the argmax of the
weak-view softmax (the probability at that index is the row maximum, which
bounds every entry); and every example whose mask is `0` has a per-example
`Lu` contribution of exactly `0`, whatever its cross-entropy value.
-/
theorem pseudo_label_mask_spec (threshold : ℝ) :
    (∀ logitsRow, maskRow threshold logitsRow = 1 ∨
      maskRow threshold logitsRow = 0) ∧
    (∀ logitsRow, maskRow threshold logitsRow = 1 ↔
      threshold ≤ maxProb logitsRow) ∧
    (∀ logitsRow : List ℝ, logitsRow ≠ [] →
      (pseudoLabelRow logitsRow).getD (targetU logitsRow) 0 =
        maxProb logitsRow ∧
      ∀ p ∈ pseudoLabelRow logitsRow, p ≤ maxProb logitsRow) ∧
    (∀ (logitsW logitsS : List (List ℝ)) (i : ℕ),
      maskRow threshold (logitsW.getD i []) = 0 →
      (LuTerms threshold logitsW logitsS).getD i 0 = 0) := by
  refine ⟨?_, ?_, ?_, ?_⟩
  · intro r
    simp only [maskRow]
    by_cases h : threshold ≤ maxProb r
    · left
      rw [if_pos h]
    · right
      rw [if_neg h]
  · intro r
    simp only [maskRow]
    by_cases h : threshold ≤ maxProb r
    · simp [h]
    · simp [h]
  · intro r hr
    have hne : pseudoLabelRow r ≠ [] := by
      cases r with
      | nil => exact absurd rfl hr
      | cons x xs => simp [pseudoLabelRow, softmaxRow]
    exact ⟨getD_rowArgmax (pseudoLabelRow r) hne, le_rowMax (pseudoLabelRow r)⟩
  · intro logitsW logitsS i hmask
    by_cases hi : i < logitsW.length ∧ i < logitsS.length
    · rw [LuTerms, zipWith_getD _ ([]) ([]) 0 logitsW logitsS i hi.1 hi.2,
        hmask, mul_zero]
    · have hlen : (LuTerms threshold logitsW logitsS).length ≤ i := by
        rw [LuTerms, List.length_zipWith]
        omega
      rw [List.getD_eq_getElem?_getD, List.getElem?_eq_none hlen,
        Option.getD_none]

/--
Witness for C2: a two-class row of equal logits has softmax `[1/2, 1/2]`;
its pseudo-label entry equals the max probability, and with threshold `2`
the mask is `0`, so the example's `Lu` contribution is `0`.
-/
theorem pseudo_label_mask_spec_witness :
    (pseudoLabelRow [0, 0]).getD (targetU [0, 0]) 0 = maxProb [0, 0] ∧
    (LuTerms 2 [[0, 0]] [[0, 0]]).getD 0 0 = 0 := by
  constructor
  · exact ((pseudo_label_mask_spec 2).2.2.1 [0, 0] (by simp)).1
  · apply (pseudo_label_mask_spec 2).2.2.2 [[0, 0]] [[0, 0]] 0
    have hmax : maxProb [0, 0] = 1 / 2 := by
      simp only [maxProb, pseudoLabelRow, softmaxRow, List.map_cons,
        List.map_nil, Real.exp_zero, List.sum_cons, List.sum_nil, rowMax,
        List.foldl_cons, List.foldl_nil]
      norm_num [max_def]
    simp only [List.getD_cons_zero, maskRow, hmax]
    norm_num

/--
Claim C3: in every training step the supervised loss equals the spec's mean
cross-entropy over the labeled segment, the unsupervised loss equals the
spec's mean of `mask[i] * cross_entropy(logits_strong[i], pseudo_label[i])`,
and the loss handed to the backward pass is `Lx + lambda_u * Lu`.
-/
theorem loss_assembly_spec (threshold lambdaU : ℝ) (logitsX : List (List ℝ))
    (targetsX : List ℕ) (logitsW logitsS : List (List ℝ))
    (hx : logitsX.length = targetsX.length)
    (hu : logitsW.length = logitsS.length) :
    Lx logitsX targetsX = LxSpecFormula logitsX targetsX ∧
    Lu threshold logitsW logitsS = LuSpecFormula threshold logitsW logitsS ∧
    totalLoss threshold lambdaU logitsX targetsX logitsW logitsS =
      Lx logitsX targetsX + lambdaU * Lu threshold logitsW logitsS := by
  refine ⟨?_, ?_, rfl⟩
  · unfold Lx mean LxSpecFormula
    rw [sum_zipWith_eq_sum_range crossEntropy ([]) 0 logitsX targetsX hx,
      List.length_zipWith, hx, min_self]
  · unfold Lu mean LuTerms LuSpecFormula
    rw [sum_zipWith_eq_sum_range
      (fun w s => crossEntropy s (targetU w) * maskRow threshold w)
      ([]) ([]) logitsW logitsS hu, List.length_zipWith, hu, min_self]
    congr 1
    apply Finset.sum_congr rfl
    intro i _
    dsimp only
    ring

/-- Witness for C3 on singleton batches. -/
theorem loss_assembly_spec_witness :
    totalLoss 1 2 [[0]] [0] [[0]] [[0]] =
      Lx [[0]] [0] + 2 * Lu 1 [[0]] [[0]] :=
  (loss_assembly_spec 1 2 [[0]] [0] [[0]] [[0]] rfl rfl).2.2

/-- Witness for C10's amended theorem at `wdecay = 1`. -/
theorem doubled_wdecay_spec_witness :
    ((groupedParameters 1 [("conv.weight")]).getD 0 ⟨[], 0⟩).weightDecayCoeff
      ≠ (1 : ℝ) :=
  (doubled_wdecay_spec 1 [("conv.weight")]).2.2 (by norm_num)

end

end FixMatch
